import Mathlib

/-!
Shallow embedding of the ReportClaw text-extraction core
(`src/reportclaw/main.py` and `src/reportclaw/daily_report.py`).

Text is modelled as `List Char` (Python strings are sequences of code
points, and `len`, slicing and membership agree with list operations).
Each Python regular expression used by the source is hand-compiled into
an executable matcher over `List Char`; a comment next to every matcher
names the original pattern.  Regex searches (`re.search`) are modelled as
"least starting position at which a decomposition exists", which is the
leftmost-match semantics of the `re` module; `re.finditer` loops are
modelled with the same jump-past-the-match behaviour as the library.
-/

set_option maxRecDepth 100000

namespace ReportClaw

/-! ## Generic character/list helpers -/

/-- Whitespace as recognised both by Python's `str.strip()` and by the
`\s` class of the `re` module (ASCII whitespace plus the two non-ASCII
space characters that occur in these documents). -/
def isWs (c : Char) : Bool :=
  c = ' ' || c = '\t' || c = '\n' || c = '\r' || c = '\x0b' || c = '\x0c' ||
  c = ' ' || c = '　'

/-- Python `str.strip()`: remove leading and trailing whitespace. -/
def pyStrip (l : List Char) : List Char :=
  ((l.dropWhile isWs).reverse.dropWhile isWs).reverse

/-- `pat` occurs as a contiguous substring (Python `pat in s`). -/
def containsSub (pat : List Char) : List Char → Bool
  | [] => pat.isPrefixOf []
  | c :: cs => pat.isPrefixOf (c :: cs) || containsSub pat cs

/-- Python `s.split(sep)` for a one-character separator (the `str.split`
semantics: `"".split(c) = [""]`, separators at the ends produce empty
parts). -/
def splitOnC (sep : Char) : List Char → List (List Char)
  | [] => [[]]
  | c :: rest =>
    if c = sep then [] :: splitOnC sep rest
    else
      match splitOnC sep rest with
      | [] => [[c]]
      | g :: gs => (c :: g) :: gs

/-- Python `"\n".join(lines)`. -/
def joinNl : List (List Char) → List Char
  | [] => []
  | [l] => l
  | l :: ls => l ++ '\n' :: joinNl ls

/-- Python `re.sub(r"\n+", "\n", t)`: collapse every run of newlines to a
single newline (a newline directly followed by another newline is
dropped, so each run keeps exactly one `\n`). -/
def collapseNl : List Char → List Char
  | [] => []
  | [c] => [c]
  | c :: d :: rest =>
    if c = '\n' && d = '\n' then collapseNl (d :: rest)
    else c :: collapseNl (d :: rest)

/-- No two adjacent newline characters (the invariant `collapseNl`
establishes and preserves). -/
def noNlNl : List Char → Bool
  | [] => true
  | [_] => true
  | c :: d :: rest => !(c = '\n' && d = '\n') && noNlNl (d :: rest)

/-- The three sequential replacements
`t.replace("\r\n", "\n").replace("\r", "\n").replace("\x0c", "\n")`
of `AnnualReportParser.normalize`, fused into a single left-to-right
pass.  The fusion is sound: each pattern starts with `\r` or `\x0c`,
the replacement text `\n` contains neither, and a `\r` immediately
followed by `\n` is exactly the case the first replacement collapses. -/
def fixNewlines : List Char → List Char
  | [] => []
  | [c] => if c = '\r' || c = '\x0c' then ['\n'] else [c]
  | c :: d :: rest =>
    if c = '\r' && d = '\n' then '\n' :: fixNewlines rest
    else if c = '\r' || c = '\x0c' then '\n' :: fixNewlines (d :: rest)
    else c :: fixNewlines (d :: rest)

/-- Digit string to number (Python `int` on a decimal digit string). -/
def digitsToNat (l : List Char) : Nat :=
  l.foldl (fun a c => a * 10 + (c.toNat - 48)) 0

/-! ## The Text Normalizer (`AnnualReportParser.normalize`) -/

/-- Line-drop rules of `AnnualReportParser.normalize`, applied to a
stripped line; a line is dropped when any rule matches.  The numbered
rules mirror the comments in the source:
1. pure page number `\d{1,4}`;
1.1 `\d{1,4}\s*/\s*\d{1,4}`;
1.2 company name + annual-report header;
1.3 company-code / short-name header;
1.4 a line that is just the company name (length at most 30);
1.5 a short "annual report" header line (length at most 20);
2. a table border row of three or more of `-+|`;
3. a header containing the "full-text annual report" phrase. -/
def dropLine (l : List Char) : Bool :=
  (1 ≤ l.length && l.length ≤ 4 && l.all Char.isDigit) ||
  pagePair l ||
  (containsSub "年度报告".data l && containsSub "股份有限公司".data l) ||
  "公司代码：".data.isPrefixOf l || "公司简称：".data.isPrefixOf l ||
  containsSub "公司代码：".data l ||
  (("股份有限公司".data.isSuffixOf l || "有限公司".data.isSuffixOf l) && l.length ≤ 30) ||
  (containsSub "年度报告".data l && l.length ≤ 20) ||
  (3 ≤ l.length && l.all (fun c => c = '-' || c = '+' || c = '|')) ||
  containsSub "年度报告全文".data l
where
  /-- `re.fullmatch(r"\d{1,4}\s*/\s*\d{1,4}", line)`.  The digit runs,
  whitespace runs and `/` are disjoint character classes, so the greedy
  match succeeds exactly when the line parses as
  digits(1-4) ws* `/` ws* digits(1-4). -/
  pagePair (l : List Char) : Bool :=
    let a := l.takeWhile Char.isDigit
    let r1 := (l.drop a.length).dropWhile isWs
    (1 ≤ a.length && a.length ≤ 4) &&
    (match r1 with
     | '/' :: r2 =>
       let r3 := r2.dropWhile isWs
       let b := r3.takeWhile Char.isDigit
       (1 ≤ b.length && b.length ≤ 4) && r3.drop b.length = []
     | _ => false)

/-- The surviving lines of `AnnualReportParser.normalize`: unify and
collapse line breaks, split, strip each line, keep the non-empty lines
no drop rule matches. -/
def normLines (s : List Char) : List (List Char) :=
  ((splitOnC '\n' (collapseNl (fixNewlines s))).map pyStrip).filter
    (fun l => l ≠ [] && !dropLine l)

/-- `AnnualReportParser.normalize`: unify line breaks, collapse newline
runs, drop header/footer lines, rejoin, delete all space characters,
collapse newline runs again. -/
def normalize (s : List Char) : List Char :=
  collapseNl ((joinNl (normLines s)).filter (· ≠ ' '))

/-! ## Heading/Ordinal Matcher (`main.py`) -/

/-- The Chinese numeral characters of the class `[一二三四五六七八九十]`. -/
def isCn (c : Char) : Bool :=
  c = '一' || c = '二' || c = '三' || c = '四' || c = '五' ||
  c = '六' || c = '七' || c = '八' || c = '九' || c = '十'

/-- The delimiter class `[、\.．:：]` used after a first-level ordinal. -/
def delims1 : List Char := ['、', '.', '．', ':', '：']

/-- Match `([一二三四五六七八九十]{1,3}|\d{1,2})` followed by one of
`delims`, at the head of `cs`; returns the ordinal token and the
remainder after the delimiter.  Because the numeral characters, the
digits and the delimiters are pairwise disjoint classes, the greedy
match with backtracking succeeds exactly when the maximal numeral run
(at most 3) or the maximal digit run (at most 2) is followed directly by
a delimiter. -/
def matchOrdDelim (delims : List Char) (cs : List Char) : Option (List Char × List Char) :=
  let k := (cs.takeWhile isCn).length
  if 1 ≤ k ∧ k ≤ 3 then
    match cs.drop k with
    | d :: rest => if d ∈ delims then some (cs.take k, rest) else none
    | [] => none
  else if k = 0 then
    let j := (cs.takeWhile Char.isDigit).length
    if 1 ≤ j ∧ j ≤ 2 then
      match cs.drop j with
      | d :: rest => if d ∈ delims then some (cs.take j, rest) else none
      | [] => none
    else none
  else none

/-- The 20-entry ordered numeral table `cn_list` of
`AnnualReportParser._next_ordinal_candidates`. -/
def cnList : List (List Char) :=
  ["一".data, "二".data, "三".data, "四".data, "五".data,
   "六".data, "七".data, "八".data, "九".data, "十".data,
   "十一".data, "十二".data, "十三".data, "十四".data, "十五".data,
   "十六".data, "十七".data, "十八".data, "十九".data, "二十".data]

/-- The table `cn_to_ar` mapping each tabulated Chinese numeral to its
Arabic form. -/
def cnToAr : List (List Char × List Char) :=
  [("一".data, "1".data), ("二".data, "2".data), ("三".data, "3".data),
   ("四".data, "4".data), ("五".data, "5".data), ("六".data, "6".data),
   ("七".data, "7".data), ("八".data, "8".data), ("九".data, "9".data),
   ("十".data, "10".data), ("十一".data, "11".data), ("十二".data, "12".data),
   ("十三".data, "13".data), ("十四".data, "14".data), ("十五".data, "15".data),
   ("十六".data, "16".data), ("十七".data, "17".data), ("十八".data, "18".data),
   ("十九".data, "19".data), ("二十".data, "20".data)]

/-- The inverted table `ar_to_cn`. -/
def arToCn : List (List Char × List Char) := cnToAr.map (fun p => (p.2, p.1))

/-- Association-list lookup (Python `dict.get`). -/
def assocLookup (k : List Char) : List (List Char × List Char) → Option (List Char)
  | [] => none
  | (a, b) :: rest => if a = k then some b else assocLookup k rest

/-- Python `list.index` as an option. -/
def idxOf (x : List Char) : List (List Char) → Option Nat
  | [] => none
  | y :: ys => if y = x then some 0 else (idxOf x ys).map (· + 1)

/-- `re.fullmatch(r"\d{1,2}", s)`. -/
def fullmatchDigits12 (s : List Char) : Bool :=
  1 ≤ s.length && s.length ≤ 2 && s.all Char.isDigit

/-- The normalisation step of `_next_ordinal_candidates`: an Arabic
input is translated through `ar_to_cn` (possibly to nothing), any other
input is used as is. -/
def curCnOf (cur : List Char) : Option (List Char) :=
  if fullmatchDigits12 cur then assocLookup cur arToCn else some cur

/-- `AnnualReportParser._next_ordinal_candidates`: candidates for the
next first-level ordinal, in both numeral systems; empty when the
current ordinal is the last tabulated value or not recognised. -/
def next_ordinal_candidates (cur : List Char) : List (List Char) :=
  match curCnOf cur with
  | none => []
  | some cc =>
    match idxOf cc cnList with
    | some idx =>
      match cnList.drop (idx + 1) with
      | nxt :: _ =>
        match assocLookup nxt cnToAr with
        | some ar => [nxt, ar]
        | none => [nxt]
      | [] => []
    | none => []

/-! ## Boundary Resolver (`_slice_to_next_major_heading`,
`_slice_to_next_ordinal`) -/

/-- The `MAJOR_HEADING_KEYWORDS` class attribute. -/
def MAJOR_HEADING_KEYWORDS : List (List Char) :=
  ["核心竞争力".data, "核心竞争力分析".data,
   "主营业务分析".data, "主营业务".data,
   "非主营业务分析".data, "非主营业务".data,
   "资产及负债状况分析".data, "资产及负债".data, "资产负债".data,
   "投资状况分析".data, "投资状况".data,
   "公司治理".data, "重要事项".data,
   "公司未来发展的展望".data, "未来发展的展望".data,
   "行业情况".data, "行业状况".data, "所属行业".data, "所处行业".data, "行业概况".data,
   "从事的主要业务".data, "主要业务".data, "主营业务".data,
   "公司未来发展的展望".data]

/-- One match attempt of the heading pattern
`\n\s*([一二三四五六七八九十]{1,3}|\d{1,2})、([^\n]{1,60})` at a
position directly after the `\n`; returns the title group and the
number of characters the match consumes after the `\n`. -/
def matchMajorAt (cs : List Char) : Option (List Char × Nat) :=
  let cs1 := cs.dropWhile isWs
  match matchOrdDelim ['、'] cs1 with
  | some (_, rest) =>
    let t := (rest.takeWhile (· ≠ '\n')).take 60
    if t = [] then none
    else some (t, cs.length - rest.length + t.length)
  | none => none

/-- The `re.finditer` loop of `_slice_to_next_major_heading`: scan for
`\n`-anchored heading matches left to right, resuming after each match
(the module's non-overlapping semantics), and return the start offset of
the first match whose title contains a major-heading keyword.  The fuel
argument starts at the buffer length and dominates it throughout. -/
def findMajorPosGo : Nat → List Char → Nat → Option Nat
  | 0, _, _ => none
  | _ + 1, [], _ => none
  | fuel + 1, c :: cs, p =>
    if c = '\n' then
      match matchMajorAt cs with
      | some (t, len) =>
        if MAJOR_HEADING_KEYWORDS.any (fun kw => containsSub kw t) then some p
        else findMajorPosGo fuel (cs.drop len) (p + 1 + len)
      | none => findMajorPosGo fuel cs (p + 1)
    else findMajorPosGo fuel cs (p + 1)

/-- Offset (within the searched suffix) of the first major heading. -/
def findMajorPos (tail : List Char) : Option Nat :=
  findMajorPosGo tail.length tail 0

/-- `AnnualReportParser._slice_to_next_major_heading`: slice from
`start_idx` up to the next first-level heading whose title contains a
`MAJOR_HEADING_KEYWORDS` entry, stripped; `none` when there is none. -/
def slice_to_next_major_heading (text : List Char) (start_idx : Nat) : Option (List Char) :=
  match findMajorPos (text.drop (start_idx + 1)) with
  | some p => some (pyStrip ((text.drop start_idx).take (p + 1)))
  | none => none

/-- `re.search(rf"(?:\n\s*{cand}、)", tail)`: first offset of a newline
followed by optional whitespace, the candidate ordinal, and `、`. -/
def findCandPos (cand : List Char) : List Char → Nat → Option Nat
  | [], _ => none
  | c :: cs, p =>
    if c = '\n' && (cand ++ ['、']).isPrefixOf (cs.dropWhile isWs) then some p
    else findCandPos cand cs (p + 1)

/-- The next-ordinal fallback of `_slice_to_next_ordinal`: end at the
earliest occurrence of a next-ordinal candidate, or at the end of the
buffer. -/
def nextOrdSlice (text : List Char) (start_idx : Nat) (cur : List Char) : List Char :=
  let cands := (next_ordinal_candidates cur).filter (· ≠ [])
  let tail := text.drop (start_idx + 1)
  let ps := cands.filterMap (fun cand => findCandPos cand tail 0)
  let e := match ps.min? with
    | some m => start_idx + 1 + m
    | none => text.length
  pyStrip ((text.drop start_idx).take (e - start_idx))

/-- `AnnualReportParser._slice_to_next_ordinal`: try the major-heading
rule first; fall through to the next-ordinal rule when it returns `None`
or an empty (hence falsy) slice. -/
def slice_to_next_ordinal (text : List Char) (start? : Option Nat) (cur : List Char) :
    Option (List Char) :=
  match start? with
  | none => none
  | some start_idx =>
    match slice_to_next_major_heading text start_idx with
    | some s => if s ≠ [] then some s else some (nextOrdSlice text start_idx cur)
    | none => some (nextOrdSlice text start_idx cur)

/-! ## Subsection Extractor (`_slice_to_next_heading_with_title_keywords`,
`_slice_to_next_bracket_heading`, `extract_section_by_ordinal`,
`extract_section_by_keywords`) -/

/-- One attempt of heading pattern A
`(?:^|\n)\s*([一二三四五六七八九十]{1,3}|\d{1,2})[、\.．:：]\s*([^\n]{1,80})`
after the anchor; returns the greedy title group and the consumed
length.  A match whose backtracked title would consist of trailing
whitespace only is reported as `none`: such a title cannot contain a
(CJK) title keyword, and the region skipped by the library's
`finditer` after it holds no further match candidates. -/
def matchTitledAt (cs : List Char) : Option (List Char × Nat) :=
  match matchOrdDelim delims1 (cs.dropWhile isWs) with
  | some (_, rest) =>
    let rest2 := rest.dropWhile isWs
    let t := (rest2.takeWhile (· ≠ '\n')).take 80
    if t = [] then none else some (t, cs.length - rest2.length + t.length)
  | none => none

/-- One attempt of heading pattern B
`(?:^|\n)\s*[（(]([一二三四五六七八九十0-9]{1,3})[）)]\s*([^\n]{1,80})`
after the anchor; same conventions as `matchTitledAt`. -/
def matchBracketTitledAt (cs : List Char) : Option (List Char × Nat) :=
  match cs.dropWhile isWs with
  | b :: r1 =>
    if b = '（' || b = '(' then
      let k := (r1.takeWhile (fun c => isCn c || c.isDigit)).length
      if 1 ≤ k ∧ k ≤ 3 then
        match r1.drop k with
        | cb :: r2 =>
          if cb = '）' || cb = ')' then
            let r3 := r2.dropWhile isWs
            let t := (r3.takeWhile (· ≠ '\n')).take 80
            if t = [] then none else some (t, cs.length - r3.length + t.length)
          else none
        | [] => none
      else none
    else none
  | [] => none

/-- `re.finditer` over `\n`-anchored positions with an early break at
the first match whose title contains one of `tks` (the loop body of
`_slice_to_next_heading_with_title_keywords`); scanning resumes after
each non-matching match.  Fuel starts at the buffer length and
dominates it. -/
def finditerKwGo (att : List Char → Option (List Char × Nat)) (tks : List (List Char)) :
    Nat → List Char → Nat → Option Nat
  | 0, _, _ => none
  | _ + 1, [], _ => none
  | fuel + 1, c :: cs, p =>
    if c = '\n' then
      match att cs with
      | some (t, len) =>
        if tks.any (fun kw => containsSub kw t) then some p
        else finditerKwGo att tks fuel (cs.drop len) (p + 1 + len)
      | none => finditerKwGo att tks fuel cs (p + 1)
    else finditerKwGo att tks fuel cs (p + 1)

/-- The full `finditer` loop including the `^` alternative at offset 0. -/
def finditerKw (att : List Char → Option (List Char × Nat)) (tks : List (List Char))
    (tail : List Char) : Option Nat :=
  match att tail with
  | some (t, len) =>
    if tks.any (fun kw => containsSub kw t) then some 0
    else finditerKwGo att tks tail.length (tail.drop len) len
  | none => finditerKwGo att tks tail.length tail 0

/-- `AnnualReportParser._slice_to_next_heading_with_title_keywords`:
slice from `start_idx` to the first later heading (pattern A or B) whose
title contains one of `title_keywords`. -/
def slice_to_next_heading_with_title_keywords (text : List Char) (start_idx : Nat)
    (tks : List (List Char)) : Option (List Char) :=
  let tail := text.drop (start_idx + 1)
  let ps := [finditerKw matchTitledAt tks tail,
             finditerKw matchBracketTitledAt tks tail].filterMap id
  match ps.min? with
  | some m => some (pyStrip ((text.drop start_idx).take (m + 1)))
  | none => none

/-- `\n\s*[（(][一二三四五六七八九十0-9]{1,3}[）)]` tested after the `\n`. -/
def matchBrkMark (cs : List Char) : Bool :=
  match cs.dropWhile isWs with
  | b :: r1 =>
    (b = '（' || b = '(') &&
    (let k := (r1.takeWhile (fun c => isCn c || c.isDigit)).length
     decide (1 ≤ k ∧ k ≤ 3) &&
     (match r1.drop k with
      | cb :: _ => cb = '）' || cb = ')'
      | [] => false))
  | [] => false

/-- `\n\s*(?:[一二三四五六七八九十]{1,3}|\d{1,2})、` tested after the `\n`. -/
def matchOrdMark (cs : List Char) : Bool :=
  (matchOrdDelim ['、'] (cs.dropWhile isWs)).isSome

/-- First offset of a `\n` whose suffix satisfies `ok` (`re.search` of a
`\n`-anchored pattern without groups). -/
def findNlPos (ok : List Char → Bool) : List Char → Nat → Option Nat
  | [], _ => none
  | c :: cs, p => if c = '\n' && ok cs then some p else findNlPos ok cs (p + 1)

/-- `AnnualReportParser._slice_to_next_bracket_heading`: slice from a
bracketed sub-heading to the next bracketed sub-heading or the next
first-level heading, stripped. -/
def slice_to_next_bracket_heading (text : List Char) (start_idx : Nat) : List Char :=
  let tail := text.drop (start_idx + 1)
  let ps := [findNlPos matchBrkMark tail 0, findNlPos matchOrdMark tail 0].filterMap id
  let e := match ps.min? with
    | some m => start_idx + 1 + m
    | none => text.length
  pyStrip ((text.drop start_idx).take (e - start_idx))

/-- One attempt of the tier-1 keyword pattern
`(?:^|\n)\s*([一二三四五六七八九十]{1,3}|\d{1,2})[、\.．:：]\s*[^\n]*kw[^\n]*`
after the anchor; returns the ordinal group.  The keyword must occur on
the same (newline-free) stretch reachable from the delimiter through
`\s*` and `[^\n]*`. -/
def matchKwTier1At (kw : List Char) (cs : List Char) : Option (List Char) :=
  match matchOrdDelim delims1 (cs.dropWhile isWs) with
  | some (ord, rest) =>
    if containsSub kw ((rest.dropWhile isWs).takeWhile (· ≠ '\n')) then some ord else none
  | none => none

/-- Scan for the tier-1 pattern at `\n` anchors. -/
def searchTier1Go (kw : List Char) : List Char → Nat → Option (Nat × List Char)
  | [], _ => none
  | c :: cs, p =>
    if c = '\n' then
      match matchKwTier1At kw cs with
      | some ord => some (p, ord)
      | none => searchTier1Go kw cs (p + 1)
    else searchTier1Go kw cs (p + 1)

/-- `re.search` of the tier-1 keyword pattern: leftmost match offset and
its ordinal group. -/
def searchTier1 (kw : List Char) (text : List Char) : Option (Nat × List Char) :=
  match matchKwTier1At kw text with
  | some ord => some (0, ord)
  | none => searchTier1Go kw text 0

/-- One attempt of the tier-2 (bracketed) keyword pattern
`(?:^|\n)\s*[（(]([一二三四五六七八九十0-9]{1,3})[）)]\s*[^\n]*kw[^\n]*`. -/
def matchKwTier2At (kw : List Char) (cs : List Char) : Bool :=
  match cs.dropWhile isWs with
  | b :: r1 =>
    (b = '（' || b = '(') &&
    (let k := (r1.takeWhile (fun c => isCn c || c.isDigit)).length
     decide (1 ≤ k ∧ k ≤ 3) &&
     (match r1.drop k with
      | cb :: r2 =>
        (cb = '）' || cb = ')') &&
        containsSub kw ((r2.dropWhile isWs).takeWhile (· ≠ '\n'))
      | [] => false))
  | [] => false

/-- `re.search` of the tier-2 pattern: leftmost match offset. -/
def searchTier2 (kw : List Char) (text : List Char) : Option Nat :=
  if matchKwTier2At kw text then some 0 else findNlPos (matchKwTier2At kw) text 0

/-- `(?:^|\n)\s*{lit}、` tested after the anchor. -/
def matchLitMark (lit : List Char) (cs : List Char) : Bool :=
  (lit ++ ['、']).isPrefixOf (cs.dropWhile isWs)

/-- `re.search(rf"(?:^|\n)\s*{lit}、", text)`. -/
def searchLitMark (lit : List Char) (text : List Char) : Option Nat :=
  if matchLitMark lit text then some 0
  else findNlPos (matchLitMark lit) text 0

/-- `(?:^|\n)\s*(?:（{lit}）|\({lit}\))` tested after the anchor. -/
def matchLitBrk (lit : List Char) (cs : List Char) : Bool :=
  let r := cs.dropWhile isWs
  ('（' :: (lit ++ ['）'])).isPrefixOf r || ('(' :: (lit ++ [')'])).isPrefixOf r

/-- `re.search` of the bracketed literal-ordinal pattern. -/
def searchLitBrk (lit : List Char) (text : List Char) : Option Nat :=
  if matchLitBrk lit text then some 0
  else findNlPos (matchLitBrk lit) text 0

/-- `re.search(rf"(?:^|\n)\s*{kw}", text)` for the keyword fallback. -/
def searchLitOnly (lit : List Char) (text : List Char) : Option Nat :=
  if lit.isPrefixOf (text.dropWhile isWs) then some 0
  else findNlPos (fun cs => lit.isPrefixOf (cs.dropWhile isWs)) text 0

/-- First keyword of the fallback list with a hit. -/
def firstLitOnly : List (List Char) → List Char → Option Nat
  | [], _ => none
  | kw :: rest, text =>
    match searchLitOnly kw text with
    | some p => some p
    | none => firstLitOnly rest text

/-- The 12-entry `cn_to_arabic` table of `extract_section_by_ordinal`. -/
def cnToArabic12 : List (List Char × List Char) :=
  [("一".data, "1".data), ("二".data, "2".data), ("三".data, "3".data),
   ("四".data, "4".data), ("五".data, "5".data), ("六".data, "6".data),
   ("七".data, "7".data), ("八".data, "8".data), ("九".data, "9".data),
   ("十".data, "10".data), ("十一".data, "11".data), ("十二".data, "12".data)]

/-- `AnnualReportParser.extract_section_by_ordinal`: locate the start of
a same-level section by ordinal (first-level forms first, bracketed
forms next, keyword fallback last) and slice to the next ordinal.  An
empty `keyword_fallback` list models the default `None`. -/
def extract_section_by_ordinal (text : List Char) (ordinal_cn : List Char)
    (keyword_fallback : List (List Char)) : Option (List Char) :=
  let s0 : Option Nat :=
    match searchLitMark ordinal_cn text with
    | some p => some p
    | none =>
      match assocLookup ordinal_cn cnToArabic12 with
      | some ar => searchLitMark ar text
      | none => none
  let s1 : Option Nat :=
    match s0 with
    | some p => some p
    | none =>
      match searchLitBrk ordinal_cn text with
      | some p => some p
      | none =>
        match assocLookup ordinal_cn cnToArabic12 with
        | some ar => searchLitBrk ar text
        | none => none
  let s2 : Option Nat :=
    match s1 with
    | some p => some p
    | none => if keyword_fallback ≠ [] then firstLitOnly keyword_fallback text else none
  slice_to_next_ordinal text s2 ordinal_cn

/-- The tier-1 loop of `extract_section_by_keywords`: keywords tried in
list order, the first with a `re.search` hit wins. -/
def firstTier1 : List (List Char) → List Char → Option (Nat × List Char)
  | [], _ => none
  | kw :: rest, text =>
    match searchTier1 kw text with
    | some r => some r
    | none => firstTier1 rest text

/-- The tier-2 loop of `extract_section_by_keywords`. -/
def firstTier2 : List (List Char) → List Char → Option Nat
  | [], _ => none
  | kw :: rest, text =>
    match searchTier2 kw text with
    | some p => some p
    | none => firstTier2 rest text

/-- Python truthiness of the optional keyword-list argument. -/
def truthyOpt (o : Option (List (List Char))) : Bool :=
  match o with
  | some l => decide (l ≠ [])
  | none => false

/-- Body of the tier-1 hit in `extract_section_by_keywords`: with
end-title keywords, slice to the next such heading (whole rest of the
buffer when that fails or is empty); otherwise slice by the matched
ordinal. -/
def tier1Result (text : List Char) (start : Nat) (ord : List Char)
    (etk : Option (List (List Char))) : Option (List Char) :=
  if truthyOpt etk then
    match slice_to_next_heading_with_title_keywords text start (etk.getD []) with
    | some s => if s ≠ [] then some s else some (pyStrip (text.drop start))
    | none => some (pyStrip (text.drop start))
  else slice_to_next_ordinal text (some start) ord

/-- The ordinal-fallback loop (tier 3) of `extract_section_by_keywords`. -/
def tier3Result (text : List Char) : List (List Char) → Option (List Char)
  | [] => none
  | o :: os =>
    match extract_section_by_ordinal text o [] with
    | some s => if s ≠ [] then some s else tier3Result text os
    | none => tier3Result text os

/-- Tiers 2 and 3 of `extract_section_by_keywords` (reached only when
every keyword failed tier 1). -/
def tier23Result (text : List Char) (keywords : List (List Char))
    (fb : List (List Char)) : Option (List Char) :=
  match firstTier2 keywords text with
  | some start =>
    let sliced := slice_to_next_bracket_heading text start
    if sliced ≠ [] then some sliced else some (pyStrip (text.drop start))
  | none => if fb ≠ [] then tier3Result text fb else none

/-- `AnnualReportParser.extract_section_by_keywords`.  An empty
`fb` list models `fallback_ordinals=None`. -/
def extract_section_by_keywords (text : List Char) (keywords : List (List Char))
    (fb : List (List Char)) (etk : Option (List (List Char))) : Option (List Char) :=
  match firstTier1 keywords text with
  | some (start, ord) => tier1Result text start ord etk
  | none => tier23Result text keywords fb

/-! ## The MD&A post-capture pipeline (`extract_mda`, lines 252-314) -/

/-- The `stop_titles` list of `extract_mda`. -/
def stop_titles : List (List Char) :=
  ["报告期内核心竞争力分析".data, "核心竞争力分析".data, "主营业务分析".data,
   "公司治理".data, "重要事项".data, "公司未来发展的展望".data,
   "未来发展的展望".data, "风险因素".data, "风险提示".data,
   "经营情况讨论与分析".data]

/-- The future-outlook keyword list of `extract_mda`. -/
def future_keywords : List (List Char) :=
  ["公司未来发展的展望".data, "未来发展的展望".data, "未来发展展望".data,
   "发展规划".data, "未来规划".data]

/-- `第三节\s*管理层讨论与分析` tested at the head of `cs`. -/
def matchSec3At (cs : List Char) : Bool :=
  "第三节".data.isPrefixOf cs &&
  "管理层讨论与分析".data.isPrefixOf ((cs.drop 3).dropWhile isWs)

/-- Leftmost offset at which `ok` holds (`re.search` of an unanchored
pattern). -/
def firstPosWhere (ok : List Char → Bool) : List Char → Nat → Option Nat
  | [], _ => none
  | c :: cs, p => if ok (c :: cs) then some p else firstPosWhere ok cs (p + 1)

/-- `re.search(r"第三节\s*管理层讨论与分析", text)`. -/
def findSec3Pos (text : List Char) : Option Nat :=
  firstPosWhere matchSec3At text 0

/-- One attempt, after the `(?:^|\n)` anchor, of the safety-net pattern
`\s*(?:[一二三四五六七八九十]{1,3}|\d{1,2})[、\.．:：]\s*[^\n]{0,80}核心竞争力分析`.
The `\s*[^\n]{0,80}` stretch reaches the keyword exactly when the
keyword starts within 80 characters of the end of the maximal
whitespace run with no intervening newline. -/
def matchCoreAfter (cs : List Char) : Bool :=
  match matchOrdDelim delims1 (cs.dropWhile isWs) with
  | some (_, rest) =>
    let afterWs := rest.dropWhile isWs
    (List.range 81).any (fun j =>
      ((afterWs.take j).all (· ≠ '\n')) &&
      "核心竞争力分析".data.isPrefixOf (afterWs.drop j))
  | none => false

/-- `re.search` of the safety-net pattern: leftmost anchor offset. -/
def findCorePos (text : List Char) : Option Nat :=
  if matchCoreAfter text then some 0 else findNlPos matchCoreAfter text 0

/-- The forced re-anchoring of the captured buffer at the literal
section-three marker (`extract_mda`, lines 256-258). -/
def mdaTrim (mda0 : List Char) : List Char :=
  match findSec3Pos mda0 with
  | some p => pyStrip (mda0.drop p)
  | none => mda0

/-- The final sanity checks of `extract_mda` (lines 300-304): an
overview shorter than 500 characters is replaced by the stripped full
buffer (kept as is when the buffer is empty); a future-outlook text
shorter than 200 characters is discarded. -/
def mda_sanity (mda : List Char) (mo fut : Option (List Char)) :
    Option (List Char) × Option (List Char) :=
  (match mo with
   | some s => if s.length < 500 then (if mda ≠ [] then some (pyStrip mda) else some s) else some s
   | none => none,
   match fut with
   | some s => if s.length < 200 then none else some s
   | none => none)

/-- The result record of `extract_mda` (the returned dict). -/
structure MdaResult where
  industry : Option (List Char)
  business : Option (List Char)
  future : Option (List Char)
  full_mda : List Char
  deriving DecidableEq

/-- The overview slice of `extract_mda` before the safety net (lines
274-276): slice to the first stop title, falling back to the whole
stripped buffer when that fails or is empty. -/
def overviewRaw (mda : List Char) : Option (List Char) :=
  match slice_to_next_heading_with_title_keywords mda 0 stop_titles with
  | some s => if s ≠ [] then some s else (if mda ≠ [] then some (pyStrip mda) else none)
  | none => if mda ≠ [] then some (pyStrip mda) else none

/-- The core-competitiveness safety net (lines 280-285): when the
safety-net pattern matches at a positive offset, the overview becomes
the stripped buffer prefix ending at the match, whatever was computed
before. -/
def overviewPostCore (mda : List Char) (mo1 : Option (List Char)) : Option (List Char) :=
  match findCorePos mda with
  | some p => if 0 < p then some (pyStrip (mda.take p)) else mo1
  | none => mo1

/-- `extract_mda` from the point where the raw section buffer has been
captured (line 252 on): trim to the section marker, slice the overview,
apply the core-competitiveness safety net, extract the future outlook,
run the sanity checks. -/
def extractFromMda (mda0 : List Char) : Option MdaResult :=
  if mda0 = [] then none
  else
    let mda := mdaTrim mda0
    let mo2 := overviewPostCore mda (overviewRaw mda)
    let fut0 := extract_section_by_keywords mda future_keywords [] none
    let bf := mda_sanity mda mo2 fut0
    some { industry := none, business := bf.1, future := bf.2, full_mda := mda }

/-! ## Section Locator (`extract_mda`, lines 180-240).

The external text-extraction collaborator is modelled as a function
`g : Nat → List Char` giving the raw text of each 0-indexed page (empty
for out-of-range pages, as the interface requires); `extract_text` for a
page list is the normalisation of the concatenated page texts, with the
form feed that `pdfminer` appends after each page. -/

/-- `"目录" in t or "目 录" in t`. -/
def tocMarker (t : List Char) : Bool :=
  containsSub "目录".data t || containsSub "目 录".data t

/-- The `SEEK_TOC` loop: first page among the first 20 whose normalised
text is non-empty and contains a table-of-contents marker. -/
def find_toc_page (g : Nat → List Char) : Option Nat :=
  (List.range 20).find? (fun p =>
    let t := normalize (g p)
    (!t.isEmpty) && tocMarker t)

/-- The page window searched for the TOC entry:
`list(range(toc_page, min(toc_page + 4, 20)))` when a TOC page was
found, `list(range(0, 6))` otherwise. -/
def tocWindow (tp : Option Nat) : List Nat :=
  match tp with
  | some p => List.range' p (min (p + 4) 20 - p)
  | none => List.range 6

/-- `pdfminer` output for a list of pages: each page's text followed by
a form feed. -/
def joinPages (ls : List (List Char)) : List Char :=
  (ls.map (· ++ ['\x0c'])).flatten

/-- `extract_text(pdf_path, page_numbers=ps)`: normalised concatenation
of the requested pages. -/
def multiText (g : Nat → List Char) (ps : List Nat) : List Char :=
  normalize (joinPages (ps.map g))

/-- The filler class `[\.·…\s]` of the TOC-line pattern. -/
def isFiller (c : Char) : Bool :=
  c = '.' || c = '·' || c = '…' || isWs c

/-- One attempt of
`第三节\s*管理层讨论与分析[\.·…\s]{2,200}(\d{1,4})` at the head of
`cs`; returns the page number parsed from the digit group.  Digits are
not filler characters, so the greedy filler run must be the maximal one
and must have length 2 to 200; the digit group takes at most the first
4 digits that follow. -/
def matchTocEntryAt (cs : List Char) : Option Nat :=
  if "第三节".data.isPrefixOf cs then
    let r1 := (cs.drop 3).dropWhile isWs
    if "管理层讨论与分析".data.isPrefixOf r1 then
      let r2 := r1.drop 8
      let f := (r2.takeWhile isFiller).length
      if 2 ≤ f ∧ f ≤ 200 then
        let ds := (r2.drop f).takeWhile Char.isDigit
        if ds ≠ [] then some (digitsToNat (ds.take 4)) else none
      else none
    else none
  else none

/-- `re.search` of the TOC-line pattern: page number of the leftmost
match. -/
def searchTocEntry : List Char → Option Nat
  | [] => none
  | c :: cs =>
    match matchTocEntryAt (c :: cs) with
    | some n => some n
    | none => searchTocEntry cs

/-- The `VALIDATE_TOC_HIT` logic (`extract_mda`, lines 196-220): the
extracted page number minus one is the candidate; reject when the
number is below 5, when the candidate is below 5, when the candidate
page's text still carries a TOC marker, or when the candidate lies in
the scanned window. -/
def validate_toc_hit (page_num : Nat) (check_text : List Char) (window : List Nat) :
    Option Nat :=
  if 5 ≤ page_num then
    if page_num - 1 < 5 then none
    else if check_text ≠ [] ∧ tocMarker check_text then none
    else if page_num - 1 ∈ window then none
    else some (page_num - 1)
  else none

/-- `re.search(r"第三节\s*管理层讨论与分析", page_text)` as a page test. -/
def sec3InPage (t : List Char) : Bool :=
  (findSec3Pos t).isSome

/-- The `SCAN_FALLBACK` loop (`extract_mda`, lines 223-234): first page
from `scan_start` up to 199 whose normalised text is non-empty, carries
no TOC marker, and matches the section-three pattern. -/
def scanFallback (g : Nat → List Char) (scan_start : Nat) : Option Nat :=
  (List.range' scan_start (200 - scan_start)).find? (fun p =>
    let t := normalize (g p)
    (!t.isEmpty) && (!tocMarker t) && sec3InPage t)

/-- Where the fallback scan starts: just past the TOC page, or 0. -/
def scanStartOf (tp : Option Nat) : Nat :=
  match tp with
  | some t => t + 1
  | none => 0

/-- The Locator front end of `extract_mda` (lines 180-234): TOC lookup
with validation, falling through to the full-text scan. -/
def locate_start (g : Nat → List Char) : Option Nat :=
  match searchTocEntry (multiText g (tocWindow (find_toc_page g))) with
  | some n =>
    match validate_toc_hit n (normalize (g (n - 1))) (tocWindow (find_toc_page g)) with
    | some sp => some sp
    | none => scanFallback g (scanStartOf (find_toc_page g))
  | none => scanFallback g (scanStartOf (find_toc_page g))

/-! ## Text Reflow Engine (`daily_report.py`, `safe_block` and its inner
`clean_text_for_pdf`) -/

/-- The line-break characters recognised by Python `str.splitlines`. -/
def isLineBreak (c : Char) : Bool :=
  c = '\n' || c = '\r' || c = '\x0b' || c = '\x0c' || c = '\x1c' ||
  c = '\x1d' || c = '\x1e' || c = '\x85' || c = '\u2028' || c = '\u2029'

/-- Accumulator pass of `str.splitlines` (`\r\n` counts as one break, a
trailing break produces no extra empty line). -/
def splitLinesGo : List Char → List Char → List (List Char)
  | [], cur => if cur = [] then [] else [cur.reverse]
  | '\r' :: '\n' :: rest, cur => cur.reverse :: splitLinesGo rest []
  | c :: rest, cur =>
    if isLineBreak c then cur.reverse :: splitLinesGo rest []
    else splitLinesGo rest (c :: cur)

/-- Python `t.splitlines()`. -/
def splitLines (l : List Char) : List (List Char) :=
  splitLinesGo l []

/-- Python `str.isdigit` (restricted to ASCII digits, the only digits in
these documents). -/
def pyIsdigit (s : List Char) : Bool :=
  (!s.isEmpty) && s.all Char.isDigit

/-- The `is_header_footer` helper inside `clean_text_for_pdf`, applied
to an already stripped line. -/
def is_header_footer (s : List Char) : Bool :=
  s.isEmpty ||
  pyIsdigit s ||
  (s.contains '/' &&
   (splitOnC '/' s).all (fun part => pyStrip part = [] || pyIsdigit (pyStrip part)) &&
   s.length ≤ 15) ||
  (containsSub "年度报告".data s && containsSub "股份有限公司".data s) ||
  "公司代码：".data.isPrefixOf s || "公司简称：".data.isPrefixOf s ||
  containsSub "公司代码：".data s ||
  (("股份有限公司".data.isSuffixOf s || "有限公司".data.isSuffixOf s) && s.length ≤ 30) ||
  (containsSub "年度报告".data s && s.length ≤ 25)

/-- The token character class of `soften_long_tokens`: ASCII letters,
digits, underscore, backslash, dot, slash, hyphen. -/
def isSoftChar (c : Char) : Bool :=
  c.isAlpha || c.isDigit || c = '_' || c = '\\' || c = '.' || c = '/' || c = '-'

/-- `"​".join(tok[i:i+20] ...)`: a zero-width space before every
character whose chunk counter has run out (i.e. after every 20
characters, never at the very start or end). -/
def zwsp20 : List Char → Nat → List Char
  | [], _ => []
  | c :: cs, k =>
    if k = 0 then '\u200b' :: c :: zwsp20 cs 19
    else c :: zwsp20 cs (k - 1)

/-- `_soften_token`: split URL/identifier-like tokens of length at
least 25 every 20 characters. -/
def softenTok (tok : List Char) : List Char :=
  if tok.length < 25 then tok
  else if (!tok.isEmpty) && tok.all isSoftChar then zwsp20 tok 20
  else tok

/-- Accumulator pass of `soften_long_tokens`: the `re.split(r"(\s+)",
line)` alternation of maximal non-whitespace tokens (softened) and
whitespace runs (kept verbatim). -/
def softenGo : List Char → List Char → List Char
  | [], tok => softenTok tok.reverse
  | c :: cs, tok =>
    if isWs c then softenTok tok.reverse ++ c :: softenGo cs []
    else softenGo cs (c :: tok)

/-- `soften_long_tokens`. -/
def softenLine (l : List Char) : List Char :=
  softenGo l []

/-- `re.search(r"[。；;：:]$", s)`. -/
def endShortPunct (s : List Char) : Bool :=
  match s.getLast? with
  | some c => c = '。' || c = '；' || c = ';' || c = '：' || c = ':'
  | none => false

/-- The short-line test of the aggregation stage. -/
def isShortLine (s : List Char) : Bool :=
  s.length ≤ 6 && !endShortPunct s

/-- `"  ".join(buf).strip()`. -/
def joinDouble (b : List (List Char)) : List Char :=
  pyStrip (List.intercalate "  ".data b)

/-- The short-line aggregation loop of `clean_text_for_pdf`: buffer
consecutive short lines, flushing on a non-short line or once the
buffer holds 12 lines. -/
def aggregateGo : List (List Char) → List (List Char) → List (List Char)
  | [], buf => if buf = [] then [] else [joinDouble buf]
  | s :: rest, buf =>
    if isShortLine s then
      let buf2 := buf ++ [s]
      if 12 ≤ buf2.length then joinDouble buf2 :: aggregateGo rest []
      else aggregateGo rest buf2
    else
      (if buf = [] then [] else [joinDouble buf]) ++ s :: aggregateGo rest []

/-- The aggregation stage, started with an empty buffer. -/
def aggregate (tmp : List (List Char)) : List (List Char) :=
  aggregateGo tmp []

/-- `heading_re` of the reflow stage:
`^(第[一二三四五六七八九十0-9]{1,3}[节章节]|[一二三四五六七八九十]{1,3}、|\d{1,2}、|[（(][一二三四五六七八九十0-9]{1,3}[）)]|\([一二三四五六七八九十0-9]{1,3}\))`
(the last alternative is subsumed by the fourth). -/
def headingMatch (s : List Char) : Bool :=
  (match s with
   | c :: r =>
     c = '第' &&
     (let k := (r.takeWhile (fun c2 => isCn c2 || c2.isDigit)).length
      decide (1 ≤ k ∧ k ≤ 3) &&
      (match r.drop k with
       | d :: _ => d = '节' || d = '章'
       | [] => false))
   | [] => false) ||
  (matchOrdDelim ['、'] s).isSome ||
  (match s with
   | b :: r1 =>
     (b = '（' || b = '(') &&
     (let k := (r1.takeWhile (fun c2 => isCn c2 || c2.isDigit)).length
      decide (1 ≤ k ∧ k ≤ 3) &&
      (match r1.drop k with
       | cb :: _ => cb = '）' || cb = ')'
       | [] => false))
   | [] => false)

/-- `end_punct_re`: `[。！？；：:）)」』】]$`. -/
def endPunctPara (s : List Char) : Bool :=
  match s.getLast? with
  | some c =>
    c = '。' || c = '！' || c = '？' || c = '；' || c = '：' || c = ':' ||
    c = '）' || c = ')' || c = '」' || c = '』' || c = '】'
  | none => false

/-- `flush_buf` of the reflow stage. -/
def flushPara (paras : List (List Char)) (buf : List Char) : List (List Char) :=
  if pyStrip buf ≠ [] then paras ++ [pyStrip buf] else paras

/-- The paragraph reflow loop: headings start a new block with a blank
line above (except at the very beginning); body lines are concatenated
until the running buffer already ends in terminal punctuation. -/
def reflowGo : List (List Char) → List (List Char) → List Char → List (List Char)
  | [], paras, buf => flushPara paras buf
  | s0 :: rest, paras, buf =>
    let s := pyStrip s0
    if s = [] then reflowGo rest (flushPara paras buf) []
    else if headingMatch s then
      let paras1 := flushPara paras buf
      let paras2 :=
        if (match paras1.getLast? with | some l => decide (l ≠ []) | none => false) then
          paras1 ++ [[]]
        else paras1
      reflowGo rest (paras2 ++ [s]) []
    else if buf = [] then reflowGo rest paras s
    else if endPunctPara buf then reflowGo rest (flushPara paras buf) s
    else reflowGo rest paras (buf ++ s)

/-- `while paras and paras[-1] == "": paras.pop()`. -/
def dropTrailingEmpty (paras : List (List Char)) : List (List Char) :=
  (paras.reverse.dropWhile (· = [])).reverse

/-- `clean_text_for_pdf` (the inner function of `safe_block`): header
filtering, token softening, short-line aggregation, paragraph reflow,
joined by single newlines and stripped. -/
def clean_text_for_pdf (t : List Char) : List Char :=
  if t = [] then t
  else
    let tmp := ((splitLines t).map
        (fun ln => pyStrip (ln.map (fun c => if c = '\u00a0' then ' ' else c)))).filter
      (fun s => !is_header_footer s)
    let tmp2 := tmp.map softenLine
    let lines := (aggregate tmp2).filter (· ≠ [])
    let paras := reflowGo lines [] []
    pyStrip (joinNl (dropTrailingEmpty paras))

/-- The value `safe_block` produces for one row cell: either the
placeholder paragraph `（未提取到内容）` or a content paragraph carrying
the assembled mini-HTML. -/
inductive SBResult where
  | placeholder : SBResult
  | para : List Char → SBResult
  deriving DecidableEq

/-- `xml.sax.saxutils.escape`. -/
def xmlEscape (l : List Char) : List Char :=
  (l.map (fun c =>
    if c = '&' then "&amp;".data
    else if c = '<' then "&lt;".data
    else if c = '>' then "&gt;".data
    else [c])).flatten

/-- The HTML assembly at the end of `safe_block`: split the cleaned text
on newlines, indent non-heading lines with two full-width spaces, join
with `<br/>`. -/
def buildHtml (cleaned : List Char) : List Char :=
  let hls := (splitOnC '\n' cleaned).map (fun ln =>
    let s := pyStrip ln
    if s = [] then []
    else if headingMatch s then xmlEscape s
    else "&#12288;&#12288;".data ++ xmlEscape s)
  List.intercalate "<br/>".data hls

/-- `safe_block`: the placeholder for falsy input (`None` or the empty
string), otherwise one paragraph built from the cleaned text. -/
def safe_block (text : Option (List Char)) : SBResult :=
  match text with
  | none => SBResult.placeholder
  | some t =>
    if t = [] then SBResult.placeholder
    else SBResult.para (buildHtml (clean_text_for_pdf t))

/-- The document of the spec's location scenario: the TOC on page 1
lists page 41 for the section-three marker, and page 40 carries the
literal marker. -/
def c1doc : Nat → List Char := fun p =>
  if p = 1 then "目录\n第三节管理层讨论与分析……41".data
  else if p = 40 then "第三节管理层讨论与分析\n年度经营概况".data
  else []

/-- The synthetic section of the spec's boundary scenario: a nested
nominal list item `三、深圳分公司情况` inside a still-open section,
followed by the true next top-level heading `四、公司治理`. -/
def c2text : List Char :=
  "一、经营情况\n内容。\n三、深圳分公司情况\n更多。\n四、公司治理\n治理内容".data

/-- A synthetic section whose overview up to the core-competitiveness
heading is exactly 500 characters long. -/
def c5buf : List Char :=
  "第三节管理层讨论与分析\n一、经营概况\n".data ++
  List.replicate 480 '字' ++ "。\n三、核心竞争力分析\n竞争内容。\n".data

/-- A buffer in which the list's first keyword (`发展规划`) matches a
heading at offset 13 while the second keyword (`未来规划`) matches a
heading at the strictly earlier offset 0. -/
def c10text : List Char :=
  "一、未来规划简介\n内容一。\n二、发展规划\n内容二。".data

/-! ## Shared lemmas -/

theorem lenDropWhileLe {α : Type} (p : α → Bool) :
    ∀ l : List α, (l.dropWhile p).length ≤ l.length
  | [] => by simp [List.dropWhile]
  | a :: l => by
    simp only [List.dropWhile]
    split
    · exact Nat.le_succ_of_le (lenDropWhileLe p l)
    · simp


/-- Closed form of the TOC-hit validation: the hit is rejected exactly
when the candidate `page_num - 1` is below 5, the candidate page still
carries a TOC marker, or the candidate lies in the scanned window. -/
theorem validate_toc_hit_eq (n : Nat) (t : List Char) (w : List Nat) :
    validate_toc_hit n t w =
      if n - 1 < 5 ∨ (t ≠ [] ∧ tocMarker t) ∨ (n - 1) ∈ w then none
      else some (n - 1) := by
  unfold validate_toc_hit
  by_cases h5 : 5 ≤ n
  · rw [if_pos h5]
    by_cases h1 : n - 1 < 5
    · simp [h1]
    · rw [if_neg h1]
      by_cases h2 : (t ≠ [] ∧ tocMarker t = true)
      · simp [h1, h2]
      · rw [if_neg h2]
        by_cases h3 : (n - 1) ∈ w
        · simp [h1, h2, h3]
        · simp [h1, h2, h3]
  · rw [if_neg h5]
    have h1 : n - 1 < 5 := by omega
    simp [h1]

theorem idxOf_eq_none (x : List Char) : ∀ l : List (List Char), x ∉ l → idxOf x l = none := by
  intro l
  induction l with
  | nil => intro _; rfl
  | cons y ys ih =>
    intro h
    have hy : ¬ y = x := fun he => h (he ▸ List.mem_cons_self y ys)
    unfold idxOf
    rw [if_neg hy, ih (fun hm => h (List.mem_cons_of_mem _ hm))]
    rfl

theorem firstTier1_append (text : List Char) (kw : List Char) (ks₂ : List (List Char))
    (p : Nat) (ord : List Char) (hkw : searchTier1 kw text = some (p, ord)) :
    ∀ ks₁ : List (List Char), (∀ k ∈ ks₁, searchTier1 k text = none) →
      firstTier1 (ks₁ ++ kw :: ks₂) text = some (p, ord) := by
  intro ks₁
  induction ks₁ with
  | nil =>
    intro _
    simp only [List.nil_append, firstTier1, hkw]
  | cons a as ih =>
    intro h
    have ha := h a (List.mem_cons_self a as)
    simp only [List.cons_append, firstTier1, ha]
    exact ih (fun k hk => h k (List.mem_cons_of_mem a hk))

theorem firstTier1_none (text : List Char) :
    ∀ ks : List (List Char), (∀ k ∈ ks, searchTier1 k text = none) →
      firstTier1 ks text = none := by
  intro ks
  induction ks with
  | nil => intro _; rfl
  | cons a as ih =>
    intro h
    simp only [firstTier1, h a (List.mem_cons_self a as)]
    exact ih (fun k hk => h k (List.mem_cons_of_mem a hk))

/-- Every element the aggregation loop outputs is either the
double-space join of a non-empty group of at most 12 short lines, or a
non-short input line passed through verbatim; the invariant is that the
running buffer holds at most 11 lines, all short. -/
theorem aggregateGo_bound :
    ∀ (tmp buf : List (List Char)), buf.length ≤ 11 → (∀ x ∈ buf, isShortLine x) →
      ∀ o ∈ aggregateGo tmp buf,
        (∃ g : List (List Char), g ≠ [] ∧ g.length ≤ 12 ∧ (∀ x ∈ g, isShortLine x) ∧
          o = joinDouble g) ∨ o ∈ tmp := by
  intro tmp
  induction tmp with
  | nil =>
    intro buf hlen hshort o ho
    by_cases hb : buf = []
    · simp [aggregateGo, hb] at ho
    · simp only [aggregateGo, if_neg hb, List.mem_singleton] at ho
      exact Or.inl ⟨buf, hb, by omega, hshort, ho⟩
  | cons s rest ih =>
    intro buf hlen hshort o ho
    simp only [aggregateGo] at ho
    by_cases hs : isShortLine s
    · rw [if_pos hs] at ho
      by_cases h12 : 12 ≤ (buf ++ [s]).length
      · rw [if_pos h12] at ho
        rcases List.mem_cons.mp ho with h | h
        · refine Or.inl ⟨buf ++ [s], by simp, ?_, ?_, h⟩
          · simp only [List.length_append, List.length_singleton]
            omega
          · intro x hx
            rcases List.mem_append.mp hx with hx | hx
            · exact hshort x hx
            · rw [List.mem_singleton.mp hx]
              exact hs
        · rcases ih [] (by simp) (by simp) o h with h' | h'
          · exact Or.inl h'
          · exact Or.inr (List.mem_cons_of_mem _ h')
      · rw [if_neg h12] at ho
        have hlen' : (buf ++ [s]).length ≤ 11 := by
          simp only [List.length_append, List.length_singleton] at h12 ⊢
          omega
        have hshort' : ∀ x ∈ buf ++ [s], isShortLine x := by
          intro x hx
          rcases List.mem_append.mp hx with hx | hx
          · exact hshort x hx
          · rw [List.mem_singleton.mp hx]
            exact hs
        rcases ih (buf ++ [s]) hlen' hshort' o ho with h' | h'
        · exact Or.inl h'
        · exact Or.inr (List.mem_cons_of_mem _ h')
    · rw [if_neg hs] at ho
      rcases List.mem_append.mp ho with h | h
      · by_cases hb : buf = []
        · simp [hb] at h
        · rw [if_neg hb, List.mem_singleton] at h
          exact Or.inl ⟨buf, hb, by omega, hshort, h⟩
      · rcases List.mem_cons.mp h with h | h
        · exact Or.inr (h ▸ List.mem_cons_self s rest)
        · rcases ih [] (by simp) (by simp) o h with h' | h'
          · exact Or.inl h'
          · exact Or.inr (List.mem_cons_of_mem _ h')

/-! ## Claim C1 -/

/-- C1: whenever the TOC lookup extracts a page number `n` for the
section-three marker, the Locator takes `n - 1` as the candidate start
page and returns it as the start; it rejects the hit and falls through
to the full-text scan exactly when the candidate is below 5, the
candidate page's text still contains a table-of-contents marker, or the
candidate lies inside the already-scanned TOC window. -/
theorem C1_toc_validation (g : Nat → List Char) (n : Nat)
    (h : searchTocEntry (multiText g (tocWindow (find_toc_page g))) = some n) :
    locate_start g =
      if n - 1 < 5 ∨
         (normalize (g (n - 1)) ≠ [] ∧ tocMarker (normalize (g (n - 1)))) ∨
         (n - 1) ∈ tocWindow (find_toc_page g) then
        scanFallback g (scanStartOf (find_toc_page g))
      else some (n - 1) := by
  unfold locate_start
  simp only [h]
  rw [validate_toc_hit_eq]
  by_cases hc : (n - 1 < 5 ∨
      (normalize (g (n - 1)) ≠ [] ∧ tocMarker (normalize (g (n - 1))) = true) ∨
      (n - 1) ∈ tocWindow (find_toc_page g))
  · rw [if_pos hc, if_pos hc]
  · rw [if_neg hc, if_neg hc]

/-- C1 witness: for `c1doc` the TOC lookup extracts 41 and the Locator
returns start page 40 (reported page minus one). -/
theorem C1_toc_validation_witness :
    searchTocEntry (multiText c1doc (tocWindow (find_toc_page c1doc))) = some 41 ∧
    locate_start c1doc = some 40 :=
  ⟨by decide, by
    rw [C1_toc_validation c1doc 41 (by decide)]
    decide⟩

/-! ## Claim C2 -/

/-- C2 counterexample: in the buffer `"\n\n三、公司治理A"` a first-level
major heading exists (the heading search hits at end offset 1), yet
because the slice in front of it strips to the empty string — which is
falsy in the source — the resolver falls through to the next-ordinal
rule and returns text that contains the heading instead of ending
before it. -/
theorem C2_counterexample :
    findMajorPos (("\n\n三、公司治理A".data).drop 1) = some 0 ∧
    slice_to_next_ordinal "\n\n三、公司治理A".data (some 0) "一".data =
      some "三、公司治理A".data ∧
    some "三、公司治理A".data ≠ some (pyStrip (("\n\n三、公司治理A".data).take 1)) := by
  refine ⟨by decide, by decide, by decide⟩

/-- C2 (amended): when a later major heading exists and the slice up to
the first one is non-empty after stripping, the extraction ends at that
heading and is independent of the current ordinal (the next-ordinal rule
is not consulted); only when no major heading exists (or the slice in
front of it strips to nothing) is the end taken from the next-ordinal
rule, which uses the earliest candidate occurrence and falls back to the
end of the buffer. -/
theorem C2_boundary_precedence :
    (∀ (text : List Char) (start e : Nat) (cur : List Char),
      findMajorPos (text.drop (start + 1)) = some e →
      pyStrip ((text.drop start).take (e + 1)) ≠ [] →
      slice_to_next_ordinal text (some start) cur =
        some (pyStrip ((text.drop start).take (e + 1)))) ∧
    (∀ (text : List Char) (start : Nat) (cur : List Char),
      findMajorPos (text.drop (start + 1)) = none →
      slice_to_next_ordinal text (some start) cur = some (nextOrdSlice text start cur)) := by
  constructor
  · intro text start e cur h1 h2
    simp only [slice_to_next_ordinal, slice_to_next_major_heading, h1]
    simp [h2]
  · intro text start cur h
    simp only [slice_to_next_ordinal, slice_to_next_major_heading, h]

/-- C2 witness: with current ordinal `二` (so that the nested `三、`
item is a next-ordinal candidate at a strictly earlier offset), the
resolver still ends at the real major heading `四、公司治理`. -/
theorem C2_boundary_precedence_witness :
    findMajorPos (c2text.drop 1) = some 23 ∧
    slice_to_next_ordinal c2text (some 0) "二".data =
      some (pyStrip ((c2text.drop 0).take 24)) :=
  ⟨by decide,
   C2_boundary_precedence.1 c2text 0 23 "二".data (by decide) (by decide)⟩

/-! ## Claim C3 -/

/-- C3 counterexample: for a captured buffer that ends in a newline and
carries no literal section-three marker, the short-overview fallback
assigns the *stripped* buffer, which differs from the full captured
section text (`full_mda`); the claim's "replaced by the full captured
section text" is therefore not exact. -/
theorem C3_counterexample :
    extractFromMda "二、业务\n概况。\n".data =
      some { industry := none, business := some "二、业务\n概况。".data,
             future := none, full_mda := "二、业务\n概况。\n".data } ∧
    ("二、业务\n概况。".data).length < 500 ∧
    some "二、业务\n概况。".data ≠ some ("二、业务\n概况。\n".data) := by
  refine ⟨by decide, by decide, by decide⟩

/-- C3 (amended): on a non-empty captured buffer, a non-absent overview
shorter than 500 characters is replaced by the whitespace-stripped full
captured section text, a non-absent future-outlook text shorter than
200 characters is set absent, and in all other cases both values are
returned unchanged. -/
theorem C3_sanity_checks (mda : List Char) (mo fut : Option (List Char)) (h : mda ≠ []) :
    mda_sanity mda mo fut =
      ((match mo with
        | some s => if s.length < 500 then some (pyStrip mda) else some s
        | none => none),
       (match fut with
        | some s => if s.length < 200 then none else some s
        | none => none)) := by
  unfold mda_sanity
  cases mo with
  | none => rfl
  | some s =>
    by_cases hs : s.length < 500
    · simp [hs, h]
    · simp [hs]

/-- C3 witness: a 100-character overview over a 600-character stripped
buffer is replaced by that buffer; a 300-character future text is kept. -/
theorem C3_sanity_checks_witness :
    mda_sanity (List.replicate 600 '字') (some (List.replicate 100 '字'))
        (some (List.replicate 300 '字')) =
      (some (List.replicate 600 '字'), some (List.replicate 300 '字')) := by
  rw [C3_sanity_checks _ _ _ (by decide)]
  decide

/-! ## Claim C4 -/

/-- C4: the next-ordinal computation sends `二` to exactly
`["三", "3"]`, sends the last tabulated value `二十` to the empty list,
and sends every ordinal the 20-entry table does not recognise to the
empty list. -/
theorem C4_next_ordinal_table :
    next_ordinal_candidates "二".data = ["三".data, "3".data] ∧
    next_ordinal_candidates "二十".data = [] ∧
    ∀ s : List Char, (∀ cc, curCnOf s = some cc → cc ∉ cnList) →
      next_ordinal_candidates s = [] := by
  refine ⟨by decide, by decide, ?_⟩
  intro s h
  unfold next_ordinal_candidates
  cases hc : curCnOf s with
  | none => rfl
  | some cc =>
    simp only [idxOf_eq_none cc cnList (h cc hc)]

/-- C4 witness: the Arabic ordinal `21` lies above the table and yields
no candidates. -/
theorem C4_next_ordinal_table_witness :
    next_ordinal_candidates "21".data = [] :=
  C4_next_ordinal_table.2.2 "21".data (by
    intro cc hcc
    rw [show curCnOf "21".data = none from by decide] at hcc
    cases hcc)

/-! ## Claim C5 -/

/-- C5 counterexample: the buffer contains the first-level heading
`三、核心竞争力分析` at a non-zero offset, and the safety net does
truncate the overview there — but the truncated overview is shorter than
500 characters, so the final sanity check replaces it with the full
section text, and the *returned* overview extends through that heading
instead of ending before it. -/
theorem C5_counterexample :
    (∃ p, findCorePos (mdaTrim
        "第三节管理层讨论与分析\n一、经营概况\n概况内容。\n三、核心竞争力分析\n竞争内容。\n".data) =
        some p ∧ 0 < p) ∧
    extractFromMda
        "第三节管理层讨论与分析\n一、经营概况\n概况内容。\n三、核心竞争力分析\n竞争内容。\n".data =
      some { industry := none,
             business := some
               "第三节管理层讨论与分析\n一、经营概况\n概况内容。\n三、核心竞争力分析\n竞争内容。".data,
             future := none,
             full_mda :=
               "第三节管理层讨论与分析\n一、经营概况\n概况内容。\n三、核心竞争力分析\n竞争内容。".data } ∧
    containsSub "三、核心竞争力分析".data
      "第三节管理层讨论与分析\n一、经营概况\n概况内容。\n三、核心竞争力分析\n竞争内容。".data = true := by
  refine ⟨⟨24, by decide, by decide⟩, by decide, by decide⟩

/-- C5 (amended): when the leftmost safety-net match sits at a positive
offset and the truncated slice is at least 500 characters long, the
returned overview is exactly that truncated slice ending before the
core-competitiveness heading, whatever the subsection extractor computed
before. -/
theorem C5_core_truncation (mda0 : List Char) (p : Nat)
    (h0 : mda0 ≠ []) (hc : findCorePos (mdaTrim mda0) = some p) (hp : 0 < p)
    (hlen : 500 ≤ (pyStrip ((mdaTrim mda0).take p)).length) :
    ∃ r : MdaResult, extractFromMda mda0 = some r ∧
      r.business = some (pyStrip ((mdaTrim mda0).take p)) := by
  have hmo2 : overviewPostCore (mdaTrim mda0) (overviewRaw (mdaTrim mda0)) =
      some (pyStrip ((mdaTrim mda0).take p)) := by
    unfold overviewPostCore
    simp only [hc, if_pos hp]
  have hb : (mda_sanity (mdaTrim mda0) (some (pyStrip ((mdaTrim mda0).take p)))
      (extract_section_by_keywords (mdaTrim mda0) future_keywords [] none)).1 =
      some (pyStrip ((mdaTrim mda0).take p)) := by
    simp only [mda_sanity]
    rw [if_neg (by omega)]
  unfold extractFromMda
  rw [if_neg h0]
  simp only [hmo2]
  exact ⟨_, rfl, hb⟩

/-- C5 witness: on `c5buf` (truncated overview of exactly 500
characters) the returned overview is the truncated slice. -/
theorem C5_core_truncation_witness :
    ∃ r : MdaResult, extractFromMda c5buf = some r ∧
      r.business = some (pyStrip ((mdaTrim c5buf).take 500)) :=
  C5_core_truncation c5buf 500 (by decide) (by decide) (by decide) (by decide)

/-! ## Claim C6 -/

/-- C6 counterexample: the non-empty input `"123"` is removed entirely
by the header/footer filter, and `safe_block` yields a paragraph with
empty content — not the placeholder block the claim promises for the
entirely-filtered case. -/
theorem C6_counterexample :
    safe_block (some "123".data) = SBResult.para [] ∧
    SBResult.para [] ≠ SBResult.placeholder := by
  refine ⟨by decide, by decide⟩

/-- C6 (amended): the reflow engine is total and always yields exactly
one block; that block is the placeholder exactly when the input is
absent or the empty string, while a non-empty but entirely-filtered
input yields an (empty) paragraph block. -/
theorem C6_reflow_totality :
    ∀ t : Option (List Char),
      (safe_block t = SBResult.placeholder ∨ ∃ h, safe_block t = SBResult.para h) ∧
      (safe_block t = SBResult.placeholder ↔ (t = none ∨ t = some [])) := by
  intro t
  rcases t with _ | l
  · exact ⟨Or.inl rfl, by simp [safe_block]⟩
  · by_cases hl : l = []
    · subst hl
      exact ⟨Or.inl rfl, by simp [safe_block]⟩
    · refine ⟨Or.inr ⟨buildHtml (clean_text_for_pdf l), by simp [safe_block, hl]⟩, ?_⟩
      simp [safe_block, hl]

/-! ## Claim C8 -/

/-- C8 counterexample: with the TOC marker found on page 1, the window
searched is `[1, 2, 3, 4]` — it contains the marker page itself and not
page 5, so it is not "the 4 pages following" that page (which would be
`[2, 3, 4, 5]`). -/
theorem C8_counterexample :
    tocWindow (some 1) = [1, 2, 3, 4] ∧
    1 ∈ tocWindow (some 1) ∧ ¬ (5 ∈ tocWindow (some 1)) := by
  refine ⟨by decide, by decide, by decide⟩

/-- C8 (amended): the TOC-line pattern is searched exactly in the 4
pages starting at (and including) the TOC-marker page, clamped below
page 20 — or in pages 0 to 5 when no marker was found in the first 20
pages — and pages outside that window do not influence the TOC-lookup
result. -/
theorem C8_toc_window :
    (∀ p q : Nat, q ∈ tocWindow (some p) ↔ (p ≤ q ∧ q < p + 4 ∧ q < 20)) ∧
    (∀ q : Nat, q ∈ tocWindow none ↔ q < 6) ∧
    (∀ (g₁ g₂ : Nat → List Char) (tp : Option Nat),
      (∀ q ∈ tocWindow tp, g₁ q = g₂ q) →
      searchTocEntry (multiText g₁ (tocWindow tp)) =
        searchTocEntry (multiText g₂ (tocWindow tp))) := by
  refine ⟨?_, ?_, ?_⟩
  · intro p q
    unfold tocWindow
    rw [List.mem_range'_1]
    omega
  · intro q
    unfold tocWindow
    rw [List.mem_range]
  · intro g₁ g₂ tp h
    unfold multiText joinPages
    rw [List.map_congr_left h]

/-- C8 witness: a document altered only on page 30 — far outside the
no-marker window `[0..5]` — produces the same TOC-lookup result. -/
theorem C8_toc_window_witness :
    searchTocEntry (multiText (fun p => if p = 30 then "目录".data else []) (tocWindow none)) =
      searchTocEntry (multiText (fun _ => ([] : List Char)) (tocWindow none)) :=
  C8_toc_window.2.2 _ _ none (by decide)

/-! ## Claim C9 -/

/-- C9: fifteen consecutive 3-character lines with no terminal
punctuation aggregate into exactly two merged lines (the first twelve
and the remaining three); and in general every merged group holds at
most 12 accumulated short lines (or is a non-short line passed through
verbatim). -/
theorem C9_short_line_aggregation :
    (aggregate (List.replicate 15 "业务收".data) =
      [List.intercalate "  ".data (List.replicate 12 "业务收".data),
       List.intercalate "  ".data (List.replicate 3 "业务收".data)]) ∧
    (∀ (tmp : List (List Char)) (o : List Char), o ∈ aggregate tmp →
      (∃ g : List (List Char), g ≠ [] ∧ g.length ≤ 12 ∧ (∀ x ∈ g, isShortLine x) ∧
        o = joinDouble g) ∨ o ∈ tmp) := by
  refine ⟨by decide, ?_⟩
  intro tmp o ho
  exact aggregateGo_bound tmp [] (by simp) (by simp) o ho

/-- C9 witness: the second merged group of the 15-line input is the
double-space join of a group of at most 12 short lines. -/
theorem C9_short_line_aggregation_witness :
    (∃ g : List (List Char), g ≠ [] ∧ g.length ≤ 12 ∧ (∀ x ∈ g, isShortLine x) ∧
      List.intercalate "  ".data (List.replicate 3 "业务收".data) = joinDouble g) ∨
    List.intercalate "  ".data (List.replicate 3 "业务收".data) ∈
      List.replicate 15 "业务收".data :=
  C9_short_line_aggregation.2 (List.replicate 15 "业务收".data) _ (by decide)

/-! ## Claim C10 -/

/-- C10: keywords are tried strictly in list order in the
sequential-ordinal tier — the first keyword with a hit determines the
extraction, whatever the other keywords would match — and the bracketed
tier (with the ordinal fallback behind it) is reached only when every
keyword failed the sequential-ordinal tier. -/
theorem C10_keyword_order :
    (∀ (text : List Char) (ks₁ ks₂ : List (List Char)) (kw : List Char)
       (fb : List (List Char)) (etk : Option (List (List Char))) (p : Nat) (ord : List Char),
      (∀ k ∈ ks₁, searchTier1 k text = none) →
      searchTier1 kw text = some (p, ord) →
      extract_section_by_keywords text (ks₁ ++ kw :: ks₂) fb etk =
        tier1Result text p ord etk) ∧
    (∀ (text : List Char) (ks fb : List (List Char)) (etk : Option (List (List Char))),
      (∀ k ∈ ks, searchTier1 k text = none) →
      extract_section_by_keywords text ks fb etk = tier23Result text ks fb) := by
  constructor
  · intro text ks₁ ks₂ kw fb etk p ord h1 h2
    unfold extract_section_by_keywords
    rw [firstTier1_append text kw ks₂ p ord h2 ks₁ h1]
  · intro text ks fb etk h
    unfold extract_section_by_keywords
    rw [firstTier1_none text ks h]

/-! ## Claim C7 -/

theorem dropWhile_idem (p : Char → Bool) :
    ∀ l : List Char, (l.dropWhile p).dropWhile p = l.dropWhile p := by
  intro l
  induction l with
  | nil => rfl
  | cons c cs ih =>
    by_cases hp : p c
    · simp only [List.dropWhile_cons, hp, if_true]
      exact ih
    · simp [List.dropWhile_cons, hp]

theorem mem_of_mem_dropWhile {c : Char} {p : Char → Bool} {l : List Char}
    (h : c ∈ l.dropWhile p) : c ∈ l :=
  (List.dropWhile_suffix p).sublist.subset h

theorem dropWhile_head_false {p : Char → Bool} {x : Char} {t : List Char}
    (h : (x :: t).dropWhile p = x :: t) : p x = false := by
  by_cases hp : p x
  · rw [List.dropWhile_cons, if_pos hp] at h
    have hlen := congrArg List.length h
    have hle := lenDropWhileLe p t
    simp only [List.length_cons] at hlen
    omega
  · simpa using hp

theorem dropWhile_eq_self_of_pre {p : Char → Bool} {l X : List Char}
    (hl : l.dropWhile p = l) (hX : X <+: l) : X.dropWhile p = X := by
  cases X with
  | nil => rfl
  | cons x xs =>
    obtain ⟨t, ht⟩ := hX
    have hx : p x = false := by
      have hform : l = x :: (xs ++ t) := by rw [← ht]; rfl
      rw [hform] at hl
      exact dropWhile_head_false hl
    simp [List.dropWhile_cons, hx]

theorem rev_dropWhile_rev_pre (p : Char → Bool) (A : List Char) :
    (A.reverse.dropWhile p).reverse <+: A := by
  obtain ⟨t, ht⟩ := (List.dropWhile_suffix p : A.reverse.dropWhile p <:+ A.reverse)
  refine ⟨t.reverse, ?_⟩
  rw [← List.reverse_append, ht, List.reverse_reverse]

theorem pyStrip_idem (l : List Char) : pyStrip (pyStrip l) = pyStrip l := by
  unfold pyStrip
  have hAfix : (l.dropWhile isWs).dropWhile isWs = l.dropWhile isWs := dropWhile_idem isWs l
  rw [dropWhile_eq_self_of_pre hAfix (rev_dropWhile_rev_pre isWs (l.dropWhile isWs))]
  rw [List.reverse_reverse, dropWhile_idem]

theorem mem_of_mem_pyStrip {c : Char} {l : List Char} (h : c ∈ pyStrip l) : c ∈ l := by
  unfold pyStrip at h
  rw [List.mem_reverse] at h
  have h2 := mem_of_mem_dropWhile h
  rw [List.mem_reverse] at h2
  exact mem_of_mem_dropWhile h2

theorem splitOnC_ne_nil (sep : Char) : ∀ l : List Char, splitOnC sep l ≠ [] := by
  intro l
  induction l with
  | nil => simp [splitOnC]
  | cons c rest ih =>
    unfold splitOnC
    by_cases hc : c = sep
    · simp [hc]
    · rw [if_neg hc]
      cases h : splitOnC sep rest with
      | nil => simp
      | cons g gs => simp

theorem mem_splitOnC_mem (sep : Char) :
    ∀ (l x : List Char), x ∈ splitOnC sep l → ∀ c ∈ x, c ∈ l := by
  intro l
  induction l with
  | nil =>
    intro x hx c hc
    simp only [splitOnC, List.mem_singleton] at hx
    subst hx
    simp at hc
  | cons a rest ih =>
    intro x hx c hc
    unfold splitOnC at hx
    by_cases ha : a = sep
    · rw [if_pos ha] at hx
      rcases List.mem_cons.mp hx with h | h
      · subst h; simp at hc
      · exact List.mem_cons_of_mem _ (ih x h c hc)
    · rw [if_neg ha] at hx
      cases hs : splitOnC sep rest with
      | nil => exact absurd hs (splitOnC_ne_nil sep rest)
      | cons g gs =>
        rw [hs] at hx
        rcases List.mem_cons.mp hx with h | h
        · subst h
          rcases List.mem_cons.mp hc with h | h
          · exact h ▸ List.mem_cons_self _ _
          · exact List.mem_cons_of_mem _ (ih g (hs ▸ List.mem_cons_self g gs) c h)
        · exact List.mem_cons_of_mem _ (ih x (hs ▸ List.mem_cons_of_mem g h) c hc)

theorem sep_not_mem_splitOnC (sep : Char) :
    ∀ (l x : List Char), x ∈ splitOnC sep l → sep ∉ x := by
  intro l
  induction l with
  | nil =>
    intro x hx
    simp only [splitOnC, List.mem_singleton] at hx
    subst hx
    simp
  | cons a rest ih =>
    intro x hx
    unfold splitOnC at hx
    by_cases ha : a = sep
    · rw [if_pos ha] at hx
      rcases List.mem_cons.mp hx with h | h
      · subst h; simp
      · exact ih x h
    · rw [if_neg ha] at hx
      cases hs : splitOnC sep rest with
      | nil => exact absurd hs (splitOnC_ne_nil sep rest)
      | cons g gs =>
        rw [hs] at hx
        rcases List.mem_cons.mp hx with h | h
        · subst h
          intro hmem
          rcases List.mem_cons.mp hmem with h | h
          · exact ha h.symm
          · exact ih g (hs ▸ List.mem_cons_self g gs) h
        · exact ih x (hs ▸ List.mem_cons_of_mem g h)

theorem splitOnC_no_sep (sep : Char) :
    ∀ x : List Char, sep ∉ x → splitOnC sep x = [x] := by
  intro x
  induction x with
  | nil => intro _; rfl
  | cons c xs ih =>
    intro h
    have hc : ¬ c = sep := fun he => h (he ▸ List.mem_cons_self c xs)
    unfold splitOnC
    rw [if_neg hc, ih (fun hm => h (List.mem_cons_of_mem _ hm))]

theorem splitOnC_append (sep : Char) (t : List Char) :
    ∀ x : List Char, sep ∉ x → splitOnC sep (x ++ sep :: t) = x :: splitOnC sep t := by
  intro x
  induction x with
  | nil =>
    intro _
    simp [splitOnC]
  | cons c xs ih =>
    intro h
    have hc : ¬ c = sep := fun he => h (he ▸ List.mem_cons_self c xs)
    show splitOnC sep (c :: (xs ++ sep :: t)) = (c :: xs) :: splitOnC sep t
    simp only [splitOnC, if_neg hc, ih (fun hm => h (List.mem_cons_of_mem _ hm))]

theorem mem_joinNl :
    ∀ (ls : List (List Char)) (c : Char), c ∈ joinNl ls →
      (∃ x ∈ ls, c ∈ x) ∨ c = '\n' := by
  intro ls
  induction ls with
  | nil => intro c h; simp [joinNl] at h
  | cons x ls ih =>
    intro c h
    cases ls with
    | nil => exact Or.inl ⟨x, List.mem_cons_self x [], h⟩
    | cons y ls' =>
      rw [show joinNl (x :: y :: ls') = x ++ '\n' :: joinNl (y :: ls') from rfl] at h
      rcases List.mem_append.mp h with h | h
      · exact Or.inl ⟨x, List.mem_cons_self x _, h⟩
      · rcases List.mem_cons.mp h with h | h
        · exact Or.inr h
        · rcases ih c h with ⟨z, hz, hc⟩ | h
          · exact Or.inl ⟨z, List.mem_cons_of_mem _ hz, hc⟩
          · exact Or.inr h

theorem splitOnC_joinNl :
    ∀ ls : List (List Char), ls ≠ [] → (∀ x ∈ ls, '\n' ∉ x) →
      splitOnC '\n' (joinNl ls) = ls := by
  intro ls
  induction ls with
  | nil => intro h _; exact absurd rfl h
  | cons x ls ih =>
    intro _ hfree
    cases ls with
    | nil =>
      show splitOnC '\n' (joinNl [x]) = [x]
      exact splitOnC_no_sep '\n' x (hfree x (List.mem_cons_self x []))
    | cons y ls' =>
      show splitOnC '\n' (x ++ '\n' :: joinNl (y :: ls')) = x :: (y :: ls')
      rw [splitOnC_append '\n' _ x (hfree x (List.mem_cons_self x _))]
      rw [ih (by simp) (fun z hz => hfree z (List.mem_cons_of_mem _ hz))]

theorem collapseNl_mem (a : Char) : ∀ l : List Char, a ∈ collapseNl l → a ∈ l := by
  intro l
  induction l using collapseNl.induct with
  | case1 => intro h; simp [collapseNl] at h
  | case2 c => intro h; simpa [collapseNl] using h
  | case3 c d rest hnl ih =>
    intro h
    rw [collapseNl, if_pos hnl] at h
    exact List.mem_cons_of_mem _ (ih h)
  | case4 c d rest hnl ih =>
    intro h
    rw [collapseNl, if_neg hnl] at h
    rcases List.mem_cons.mp h with h | h
    · exact h ▸ List.mem_cons_self _ _
    · exact List.mem_cons_of_mem _ (ih h)

theorem collapseNl_eq_self : ∀ l : List Char, noNlNl l → collapseNl l = l := by
  intro l
  induction l using collapseNl.induct with
  | case1 => intro _; rfl
  | case2 c => intro _; rfl
  | case3 c d rest hnl ih =>
    intro h
    exfalso
    unfold noNlNl at h
    rw [hnl] at h
    simp at h
  | case4 c d rest hnl ih =>
    intro h
    rw [collapseNl, if_neg hnl]
    unfold noNlNl at h
    simp only [Bool.and_eq_true] at h
    rw [ih h.2]

theorem noNlNl_cons (c : Char) (rest : List Char) (hc : c ≠ '\n') (h : noNlNl rest) :
    noNlNl (c :: rest) := by
  cases rest with
  | nil => rfl
  | cons d r =>
    unfold noNlNl
    simp [hc, h]

theorem noNlNl_of_not_mem : ∀ l : List Char, '\n' ∉ l → noNlNl l := by
  intro l
  induction l with
  | nil => intro _; rfl
  | cons c rest ih =>
    intro h
    exact noNlNl_cons c rest (fun he => h (he ▸ List.mem_cons_self c rest))
      (ih (fun hm => h (List.mem_cons_of_mem _ hm)))

theorem noNlNl_append_cons (t : List Char) (hnt : noNlNl ('\n' :: t)) :
    ∀ x : List Char, '\n' ∉ x → noNlNl (x ++ '\n' :: t) := by
  intro x
  induction x with
  | nil => intro _; exact hnt
  | cons c xs ih =>
    intro h
    exact noNlNl_cons c _ (fun he => h (he ▸ List.mem_cons_self c xs))
      (ih (fun hm => h (List.mem_cons_of_mem _ hm)))

theorem noNlNl_nl_cons (t : List Char) (h : noNlNl t)
    (ht : ∀ d r, t = d :: r → d ≠ '\n') : noNlNl ('\n' :: t) := by
  cases t with
  | nil => rfl
  | cons d r =>
    unfold noNlNl
    simp [ht d r rfl, h]

theorem joinNl_cons_head (c : Char) (cs : List Char) (rest : List (List Char)) :
    ∃ tail, joinNl ((c :: cs) :: rest) = c :: tail := by
  cases rest with
  | nil => exact ⟨cs, rfl⟩
  | cons y ls => exact ⟨cs ++ '\n' :: joinNl (y :: ls), rfl⟩

theorem noNlNl_joinNl :
    ∀ ls : List (List Char), (∀ x ∈ ls, x ≠ []) → (∀ x ∈ ls, '\n' ∉ x) →
      noNlNl (joinNl ls) := by
  intro ls
  induction ls with
  | nil => intro _ _; rfl
  | cons x ls ih =>
    intro hne hfree
    cases ls with
    | nil =>
      show noNlNl (joinNl [x])
      exact noNlNl_of_not_mem x (hfree x (List.mem_cons_self x []))
    | cons y ls' =>
      show noNlNl (x ++ '\n' :: joinNl (y :: ls'))
      have hy : y ≠ [] := hne y (by simp)
      have hJ : noNlNl (joinNl (y :: ls')) :=
        ih (fun z hz => hne z (List.mem_cons_of_mem _ hz))
          (fun z hz => hfree z (List.mem_cons_of_mem _ hz))
      have hhead : noNlNl ('\n' :: joinNl (y :: ls')) := by
        cases y with
        | nil => exact absurd rfl hy
        | cons c cs =>
          obtain ⟨tail, htail⟩ := joinNl_cons_head c cs ls'
          rw [htail] at hJ ⊢
          refine noNlNl_nl_cons _ hJ ?_
          intro d r he
          have hcd : d = c := by injection he with h1 _; exact h1.symm
          have hcy : c ≠ '\n' := fun he2 =>
            hfree (c :: cs) (List.mem_cons_of_mem _ (List.mem_cons_self _ _))
              (he2 ▸ List.mem_cons_self c cs)
          exact hcd ▸ hcy
      exact noNlNl_append_cons _ hhead x (hfree x (List.mem_cons_self x _))

theorem collapseNl_joinNl (ls : List (List Char)) (hne : ∀ x ∈ ls, x ≠ [])
    (hfree : ∀ x ∈ ls, '\n' ∉ x) : collapseNl (joinNl ls) = joinNl ls :=
  collapseNl_eq_self _ (noNlNl_joinNl ls hne hfree)

theorem fixNewlines_eq_self : ∀ l : List Char, '\r' ∉ l → '\x0c' ∉ l → fixNewlines l = l := by
  intro l
  induction l using fixNewlines.induct with
  | case1 => intro _ _; rfl
  | case2 c hc =>
    intro h1 h2
    exfalso
    simp only [Bool.or_eq_true, decide_eq_true_eq] at hc
    rcases hc with h | h
    · exact h1 (h ▸ List.mem_cons_self c [])
    · exact h2 (h ▸ List.mem_cons_self c [])
  | case3 c hc =>
    intro _ _
    rw [fixNewlines, if_neg hc]
  | case4 c d rest hcd ih =>
    intro h1 _
    exfalso
    simp only [Bool.and_eq_true, decide_eq_true_eq] at hcd
    exact h1 (hcd.1 ▸ List.mem_cons_self _ _)
  | case5 c d rest hcd hor ih =>
    intro h1 h2
    exfalso
    simp only [Bool.or_eq_true, decide_eq_true_eq] at hor
    rcases hor with h | h
    · exact h1 (h ▸ List.mem_cons_self _ _)
    · exact h2 (h ▸ List.mem_cons_self _ _)
  | case6 c d rest hcd hor ih =>
    intro h1 h2
    rw [fixNewlines, if_neg hcd, if_neg hor]
    rw [ih (fun hm => h1 (List.mem_cons_of_mem _ hm))
        (fun hm => h2 (List.mem_cons_of_mem _ hm))]

theorem fixNewlines_not_cr : ∀ l : List Char, '\r' ∉ fixNewlines l := by
  intro l
  induction l using fixNewlines.induct with
  | case1 => simp [fixNewlines]
  | case2 c hc =>
    rw [fixNewlines, if_pos hc]
    simp
  | case3 c hc =>
    rw [fixNewlines, if_neg hc]
    simp only [Bool.or_eq_true, decide_eq_true_eq] at hc
    push_neg at hc
    simp only [List.mem_singleton]
    exact fun h => hc.1 h.symm
  | case4 c d rest hcd ih =>
    rw [fixNewlines, if_pos hcd]
    intro hmem
    rcases List.mem_cons.mp hmem with h | h
    · exact absurd h.symm (by decide)
    · exact ih h
  | case5 c d rest hcd hor ih =>
    rw [fixNewlines, if_neg hcd, if_pos hor]
    intro hmem
    rcases List.mem_cons.mp hmem with h | h
    · exact absurd h.symm (by decide)
    · exact ih h
  | case6 c d rest hcd hor ih =>
    rw [fixNewlines, if_neg hcd, if_neg hor]
    intro hmem
    rcases List.mem_cons.mp hmem with h | h
    · simp only [Bool.or_eq_true, decide_eq_true_eq] at hor
      push_neg at hor
      exact hor.1 h.symm
    · exact ih h

theorem fixNewlines_not_ff : ∀ l : List Char, '\x0c' ∉ fixNewlines l := by
  intro l
  induction l using fixNewlines.induct with
  | case1 => simp [fixNewlines]
  | case2 c hc =>
    rw [fixNewlines, if_pos hc]
    simp
  | case3 c hc =>
    rw [fixNewlines, if_neg hc]
    simp only [Bool.or_eq_true, decide_eq_true_eq] at hc
    push_neg at hc
    simp only [List.mem_singleton]
    exact fun h => hc.2 h.symm
  | case4 c d rest hcd ih =>
    rw [fixNewlines, if_pos hcd]
    intro hmem
    rcases List.mem_cons.mp hmem with h | h
    · exact absurd h.symm (by decide)
    · exact ih h
  | case5 c d rest hcd hor ih =>
    rw [fixNewlines, if_neg hcd, if_pos hor]
    intro hmem
    rcases List.mem_cons.mp hmem with h | h
    · exact absurd h.symm (by decide)
    · exact ih h
  | case6 c d rest hcd hor ih =>
    rw [fixNewlines, if_neg hcd, if_neg hor]
    intro hmem
    rcases List.mem_cons.mp hmem with h | h
    · simp only [Bool.or_eq_true, decide_eq_true_eq] at hor
      push_neg at hor
      exact hor.2 h.symm
    · exact ih h

theorem fixNewlines_mem : ∀ (l : List Char) (c : Char),
    c ∈ fixNewlines l → c ∈ l ∨ c = '\n' := by
  intro l
  induction l using fixNewlines.induct with
  | case1 => intro c h; simp [fixNewlines] at h
  | case2 a ha =>
    intro c h
    rw [fixNewlines, if_pos ha] at h
    exact Or.inr (List.mem_singleton.mp h)
  | case3 a ha =>
    intro c h
    rw [fixNewlines, if_neg ha] at h
    exact Or.inl h
  | case4 a d rest hcd ih =>
    intro c h
    rw [fixNewlines, if_pos hcd] at h
    rcases List.mem_cons.mp h with h | h
    · exact Or.inr h
    · rcases ih c h with h | h
      · exact Or.inl (List.mem_cons_of_mem _ (List.mem_cons_of_mem _ h))
      · exact Or.inr h
  | case5 a d rest hcd hor ih =>
    intro c h
    rw [fixNewlines, if_neg hcd, if_pos hor] at h
    rcases List.mem_cons.mp h with h | h
    · exact Or.inr h
    · rcases ih c h with h | h
      · exact Or.inl (List.mem_cons_of_mem _ h)
      · exact Or.inr h
  | case6 a d rest hcd hor ih =>
    intro c h
    rw [fixNewlines, if_neg hcd, if_neg hor] at h
    rcases List.mem_cons.mp h with h | h
    · exact Or.inl (h ▸ List.mem_cons_self _ _)
    · rcases ih c h with h | h
      · exact Or.inl (List.mem_cons_of_mem _ h)
      · exact Or.inr h

/-- Facts about every surviving line of the Normalizer: it is
strip-fixed, non-empty, free of line-break control characters, it passed
the drop-rule filter, and its characters come from the input (or are
newlines introduced by the line-break unification). -/
theorem normLines_facts (s : List Char) :
    ∀ x ∈ normLines s,
      pyStrip x = x ∧ x ≠ [] ∧ '\n' ∉ x ∧ '\r' ∉ x ∧ '\x0c' ∉ x ∧
      (x ≠ [] && !dropLine x) = true ∧ (∀ c ∈ x, c ∈ s ∨ c = '\n') := by
  intro x hx
  unfold normLines at hx
  obtain ⟨hmem, hpred⟩ := List.mem_filter.mp hx
  obtain ⟨y, hy, hxy⟩ := List.mem_map.mp hmem
  have hchar : ∀ c ∈ x, c ∈ fixNewlines s := by
    intro c hc
    have h1 : c ∈ y := mem_of_mem_pyStrip (hxy ▸ hc)
    have h2 : c ∈ collapseNl (fixNewlines s) := mem_splitOnC_mem '\n' _ y hy c h1
    exact collapseNl_mem c _ h2
  refine ⟨hxy ▸ pyStrip_idem y, ?_, ?_, ?_, ?_, hpred, ?_⟩
  · intro he
    rw [he] at hpred
    simp at hpred
  · intro hc
    exact sep_not_mem_splitOnC '\n' _ y hy (mem_of_mem_pyStrip (hxy ▸ hc))
  · intro hc
    exact fixNewlines_not_cr s (hchar _ hc)
  · intro hc
    exact fixNewlines_not_ff s (hchar _ hc)
  · intro c hc
    exact fixNewlines_mem s c (hchar c hc)

theorem filter_space_joinNl (L : List (List Char)) (h : ∀ x ∈ L, ' ' ∉ x) :
    (joinNl L).filter (· ≠ ' ') = joinNl L := by
  rw [List.filter_eq_self]
  intro a ha
  rcases mem_joinNl L a ha with ⟨x, hx, hax⟩ | ha'
  · simp only [ne_eq, decide_eq_true_eq]
    intro he
    exact h x hx (he ▸ hax)
  · simp [ha']

/-- C7 counterexample: normalizing `"1 2"` yields `"12"` (spaces are
removed only after line filtering), and a second normalization drops
`"12"` as a bare page number — the Normalizer is not idempotent. -/
theorem C7_counterexample :
    normalize (normalize "1 2".data) ≠ normalize "1 2".data := by decide

/-- C7 (amended): on every input containing no space character the
Normalizer is idempotent — re-running it on its own output yields an
identical buffer.  (Spaces break idempotence because they are deleted
only after the line-drop rules ran, so the deletion can create lines a
second pass would drop.) -/
theorem C7_normalize_idem (s : List Char) (hsp : ' ' ∉ s) :
    normalize (normalize s) = normalize s := by
  set L := normLines s with hL
  have hfacts : ∀ x ∈ L,
      pyStrip x = x ∧ x ≠ [] ∧ '\n' ∉ x ∧ '\r' ∉ x ∧ '\x0c' ∉ x ∧
      (x ≠ [] && !dropLine x) = true ∧ (∀ c ∈ x, c ∈ s ∨ c = '\n') :=
    normLines_facts s
  have hsp' : ∀ x ∈ L, ' ' ∉ x := by
    intro x hx hc
    rcases (hfacts x hx).2.2.2.2.2.2 ' ' hc with h | h
    · exact hsp h
    · exact absurd h (by decide)
  have hne : ∀ x ∈ L, x ≠ [] := fun x hx => (hfacts x hx).2.1
  have hnl : ∀ x ∈ L, '\n' ∉ x := fun x hx => (hfacts x hx).2.2.1
  have h1 : normalize s = joinNl L := by
    unfold normalize
    rw [← hL, filter_space_joinNl _ hsp', collapseNl_joinNl _ hne hnl]
  by_cases h0 : L = []
  · rw [h1, h0]
    decide
  · have hcr : '\r' ∉ joinNl L := by
      intro hc
      rcases mem_joinNl _ _ hc with ⟨x, hx, hax⟩ | h
      · exact (hfacts x hx).2.2.2.1 hax
      · exact absurd h (by decide)
    have hff : '\x0c' ∉ joinNl L := by
      intro hc
      rcases mem_joinNl _ _ hc with ⟨x, hx, hax⟩ | h
      · exact (hfacts x hx).2.2.2.2.1 hax
      · exact absurd h (by decide)
    have h2 : normLines (joinNl L) = L := by
      unfold normLines
      rw [fixNewlines_eq_self _ hcr hff,
          collapseNl_joinNl _ hne hnl,
          splitOnC_joinNl _ h0 hnl]
      have hmap : L.map pyStrip = L := by
        have hstrip : ∀ x ∈ L, pyStrip x = id x := fun x hx => (hfacts x hx).1
        rw [List.map_congr_left hstrip, List.map_id]
      rw [hmap]
      rw [List.filter_eq_self.mpr (fun x hx => (hfacts x hx).2.2.2.2.2.1)]
    rw [h1]
    unfold normalize
    rw [h2, filter_space_joinNl _ hsp', collapseNl_joinNl _ hne hnl]

/-- C7 witness: a space-free sample (a header line, body text and a page
number) on which normalization is idempotent. -/
theorem C7_normalize_idem_witness :
    normalize (normalize "公司代码：600001\n正文内容。\n12".data) =
      normalize "公司代码：600001\n正文内容。\n12".data :=
  C7_normalize_idem _ (by decide)

/-- C10 witness: the first keyword wins although the later keyword
matches earlier in the buffer. -/
theorem C10_keyword_order_witness :
    searchTier1 "发展规划".data c10text = some (13, "二".data) ∧
    searchTier1 "未来规划".data c10text = some (0, "一".data) ∧
    extract_section_by_keywords c10text ["发展规划".data, "未来规划".data] [] none =
      tier1Result c10text 13 "二".data none ∧
    tier1Result c10text 13 "二".data none = some "二、发展规划\n内容二。".data :=
  ⟨by decide, by decide,
   C10_keyword_order.1 c10text [] ["未来规划".data] "发展规划".data [] none 13 "二".data
     (by simp) (by decide),
   by decide⟩

end ReportClaw
